import Mathlib

/-!
Shallow embedding of the frame-to-color pipeline of
`mini-ambilight-bluetooth` (`src/main.rs`, `src/vibrant.rs`).

Conventions of the embedding:
* 8-bit channel values are `Nat` (0..255); where the Rust code performs
  `u8` arithmetic that can wrap, the wrap is made explicit with `% 256`.
* `f32`/`f64` arithmetic is modelled over `ℚ` (exact real-number model of
  the floating expressions appearing in the source).
* The Rust `BTreeMap<usize, usize>` histogram is modelled as an
  association list with unique keys built by `bump`.
* The external crate `color_quant::NeuQuant` (trained quantizer) is not
  part of the repository; it is modelled as an abstract value of type
  `Quant` (its `color_map_rgba` chunked to RGB triples plus its
  `index_of` classifier), produced by an arbitrary `mkQuant` function of
  the training byte stream, exactly as `Palette::new` feeds it.
-/

/-- An RGB triple, one `u8` per channel (`image::Rgb<u8>`). -/
structure Rgb where
  r : ℕ
  g : ℕ
  b : ℕ
deriving DecidableEq, Repr

/-- An RGBA pixel, one `u8` per channel (`image::Rgba<u8>`). -/
structure Rgba where
  r : ℕ
  g : ℕ
  b : ℕ
  a : ℕ
deriving DecidableEq, Repr

/-- `Rgba::to_rgb`: drop the alpha channel. -/
def Rgba.toRgb (p : Rgba) : Rgb := ⟨p.r, p.g, p.b⟩

/-- `vibrant.rs, is_boring_pixel`: a pixel is boring unless it is mostly
opaque (`a >= 125`) and not near-white (`!(r > 250 && g > 250 && b > 250)`). -/
def is_boring_pixel (p : Rgba) : Bool :=
  let interesting :=
    decide (125 ≤ p.a) && ! (decide (250 < p.r) && decide (250 < p.g) && decide (250 < p.b))
  ! interesting

/-- A captured frame: row-major pixel list of length `width * height`. -/
structure Frame where
  width : ℕ
  height : ℕ
  pixels : List Rgba
  hsize : pixels.length = width * height

/-- Abstract model of the trained external quantizer (`color_quant::NeuQuant`):
`colormap` is `color_map_rgba()` chunked into RGB entries, `index_of` its
nearest-color classifier. -/
structure Quant where
  colormap : List Rgb
  index_of : Rgba → ℕ

/-- `vibrant.rs, Palette::new`, training stream: channels of the pixels that
survive the boring-pixel filter, flattened (all four channels pushed). -/
def flat_pixels (frame : Frame) : List ℕ :=
  (frame.pixels.filter (fun p => ! is_boring_pixel p)).flatMap (fun p => [p.r, p.g, p.b, p.a])

/-- One histogram increment: `*acc.entry(k).or_insert(0) += 1` on the
association-list model of the `BTreeMap`. -/
def bump : List (ℕ × ℕ) → ℕ → List (ℕ × ℕ)
  | [], k => [(k, 1)]
  | (k', c) :: rest, k => if k = k' then (k', c + 1) :: rest else (k', c) :: bump rest k

/-- `vibrant.rs, Palette::new`, histogram fold: every pixel of the frame
(boring or not) is classified with `quant.index_of` and counted. -/
def pixel_counts_of (q : Quant) (pixels : List Rgba) : List (ℕ × ℕ) :=
  pixels.foldl (fun acc p => bump acc (q.index_of p)) []

/-- `itertools .unique()`: deduplicate keeping the first occurrence;
`seen` accumulates the elements already emitted. -/
def uniqueAux : List Rgb → List Rgb → List Rgb
  | _, [] => []
  | seen, c :: rest => if c ∈ seen then uniqueAux seen rest else c :: uniqueAux (c :: seen) rest

/-- The deduplicated color list, first occurrence kept (source order). -/
def uniqueFirst (l : List Rgb) : List Rgb := uniqueAux [] l

/-- `vibrant.rs, Palette`: deduplicated palette plus histogram. -/
structure Palette where
  palette : List Rgb
  pixel_counts : List (ℕ × ℕ)
deriving DecidableEq, Repr

/-- `vibrant.rs, Palette::new`: filter boring pixels into the training
stream, hand it to the external quantizer, histogram every frame pixel by
its quantizer index, and deduplicate the quantizer's colormap. There is no
error path: the function unconditionally returns a `Palette`. -/
def Palette.new (mkQuant : List ℕ → Quant) (frame : Frame) : Palette :=
  let quant := mkQuant (flat_pixels frame)
  { palette := uniqueFirst quant.colormap
    pixel_counts := pixel_counts_of quant frame.pixels }

/-- Sum of the histogram's values. -/
def sumValues (m : List (ℕ × ℕ)) : ℕ := (m.map Prod.snd).sum

lemma sumValues_bump (m : List (ℕ × ℕ)) (k : ℕ) :
    sumValues (bump m k) = sumValues m + 1 := by
  induction m with
  | nil => simp [bump, sumValues]
  | cons hd tl ih =>
    obtain ⟨k', c⟩ := hd
    by_cases h : k = k'
    · simp [bump, h, sumValues]
      ring
    · simp [bump, h, sumValues] at ih ⊢
      omega

lemma sumValues_foldl (q : Quant) (l : List Rgba) (m : List (ℕ × ℕ)) :
    sumValues (l.foldl (fun acc p => bump acc (q.index_of p)) m) = sumValues m + l.length := by
  induction l generalizing m with
  | nil => simp
  | cons hd tl ih =>
    simp only [List.foldl_cons, ih, sumValues_bump, List.length_cons]
    omega

/-- C1: for every frame handed to `Palette::new`, the histogram counts every
pixel of the frame — including pixels classified as boring and excluded from
the training stream — so the sum of all values in `pixel_counts` equals
`width * height`. -/
theorem palette_histogram_counts_all_pixels (mkQuant : List ℕ → Quant) (frame : Frame) :
    sumValues (Palette.new mkQuant frame).pixel_counts = frame.width * frame.height := by
  simp only [Palette.new, pixel_counts_of, sumValues_foldl]
  simpa [sumValues] using frame.hsize

/-- A fully opaque white pixel `(255,255,255,255)`. -/
def whitePixel : Rgba := ⟨255, 255, 255, 255⟩

/-- A 2×2 frame that is fully opaque white everywhere. -/
def whiteFrame : Frame := ⟨2, 2, [whitePixel, whitePixel, whitePixel, whitePixel], rfl⟩

/-- A concrete stand-in for the external quantizer: one colormap entry,
every pixel classified to index 0. -/
def constQuant : List ℕ → Quant := fun _ => ⟨[⟨0, 0, 0⟩], fun _ => 0⟩

/-- C2, counterexample: on the all-white frame every pixel is boring, so the
training stream handed to the quantizer is empty — yet `Palette::new` still
returns a `Palette` (the source has no error path at all; no
`InsufficientSamples` error exists anywhere in the repository), refuting
"fails with an `InsufficientSamples` error rather than producing any
palette". -/
theorem palette_new_white_frame_produces_palette :
    flat_pixels whiteFrame = [] ∧
      Palette.new constQuant whiteFrame = ⟨[⟨0, 0, 0⟩], [(0, 4)]⟩ := by
  constructor
  · rfl
  · rfl

/-- C2, amended: for every frame whose pixels are all boring (in particular
the all-white frame), the training stream is empty, but `Palette::new` does
not fail: it has no error path and unconditionally builds a `Palette` from
whatever the external quantizer returns for the empty training stream, with
the histogram still taken over all frame pixels. -/
theorem palette_new_total_on_empty_training (mkQuant : List ℕ → Quant) (frame : Frame)
    (hall : ∀ p ∈ frame.pixels, is_boring_pixel p = true) :
    flat_pixels frame = [] ∧
      Palette.new mkQuant frame =
        { palette := uniqueFirst (mkQuant []).colormap
          pixel_counts := pixel_counts_of (mkQuant []) frame.pixels } := by
  have hfilter : frame.pixels.filter (fun p => ! is_boring_pixel p) = [] := by
    rw [List.filter_eq_nil_iff]
    intro p hp
    simp [hall p hp]
  have hflat : flat_pixels frame = [] := by
    simp [flat_pixels, hfilter]
  exact ⟨hflat, by simp [Palette.new, hflat]⟩

/-- C2, witness for the amended theorem at the concrete all-white frame. -/
theorem palette_new_total_on_empty_training_witness :
    flat_pixels whiteFrame = [] ∧
      Palette.new constQuant whiteFrame =
        { palette := uniqueFirst (constQuant []).colormap
          pixel_counts := pixel_counts_of (constQuant []) whiteFrame.pixels } :=
  palette_new_total_on_empty_training constQuant whiteFrame (by decide)

/-- A stand-in for the external quantizer whose colormap holds a duplicate
color (NeuQuant's network routinely collapses onto repeated entries), and
which classifies every pixel to raw index 2. -/
def dupQuant : List ℕ → Quant := fun _ => ⟨[⟨1, 2, 3⟩, ⟨1, 2, 3⟩, ⟨9, 9, 9⟩], fun _ => 2⟩

/-- A 1×1 frame holding one opaque `(9,9,9)` pixel. -/
def onePixelFrame : Frame := ⟨1, 1, [⟨9, 9, 9, 255⟩], rfl⟩

/-- C4: evaluation at the failing input. The deduplicated palette keeps
first-seen order and is channel-distinct, but the histogram keys are the raw
quantizer indices and are never remapped: the single pixel is classified to
raw index 2 (colormap color `(9,9,9)`), the deduplicated palette has length
2, so key 2 is not a valid index into the deduplicated palette — contradicting
the claimed remapping invariant (and the `pixel_counts` field's own
documentation, "a map of indices in the palette"). -/
theorem palette_new_histogram_key_not_remapped :
    (Palette.new dupQuant onePixelFrame).palette = [⟨1, 2, 3⟩, ⟨9, 9, 9⟩] ∧
      (Palette.new dupQuant onePixelFrame).pixel_counts = [(2, 1)] ∧
      ¬ (2 < (Palette.new dupQuant onePixelFrame).palette.length) := by
  refine ⟨rfl, rfl, ?_⟩
  decide

/-- `main.rs:84`, SquaredAverage arm:
`let sample_width = (width as f32 * sample_rate) as usize` — the `as usize`
cast truncates toward zero. -/
def sample_width (width : ℕ) (rate : ℚ) : ℕ := (⌊(width : ℚ) * rate⌋).toNat

/-- `main.rs:86`, SquaredAverage arm:
`let sample_height = (width as f32 * sample_rate) as usize` — note that the
source computes this from `width`, not `height`. -/
def sample_height (width height : ℕ) (rate : ℚ) : ℕ := (⌊(width : ℚ) * rate⌋).toNat

/-- `main.rs:85`: `let step_x = width / sample_width` (integer division). -/
def step_x (width : ℕ) (rate : ℚ) : ℕ := width / sample_width width rate

/-- `main.rs:87`: `let step_y = height / sample_height` (integer division). -/
def step_y (width height : ℕ) (rate : ℚ) : ℕ := height / sample_height width height rate

/-- `main.rs:89-101`: the `samples` counter incremented once per sampled grid
point of the double loop. -/
def samplesCount (width height : ℕ) (rate : ℚ) : ℕ :=
  (List.range (sample_width width rate)).foldl
    (fun acc _ => (List.range (sample_height width height rate)).foldl (fun a _ => a + 1) acc) 0

lemma foldl_add_one (n a : ℕ) : (List.range n).foldl (fun a _ => a + 1) a = a + n := by
  induction n generalizing a with
  | zero => simp
  | succ m ih =>
    simp [List.range_succ, List.foldl_append, ih]
    omega

lemma samplesCount_eq (width height : ℕ) (rate : ℚ) :
    samplesCount width height rate = sample_width width rate * sample_height width height rate := by
  unfold samplesCount
  generalize sample_width width rate = n
  generalize sample_height width height rate = m
  induction n with
  | zero => simp
  | succ k ih =>
    rw [List.range_succ, List.foldl_append, List.foldl_cons, List.foldl_nil, ih, foldl_add_one]
    ring

/-- C3: evaluation at the failing input `width = 100, height = 10,
sample_rate = 1/2`. The source computes `sample_height` from the **width**
(`(width as f32 * sample_rate) as usize`), giving 50 where the claimed
`round(height * sample_rate)` is 5; moreover the cast truncates rather than
rounds (`width = 3, rate = 1/2` gives 1, not `round(1.5) = 2`). -/
theorem sample_height_uses_width_bug :
    sample_height 100 10 (1/2) = 50 ∧
      (10 : ℚ) * (1/2) = 5 ∧
      sample_width 3 (1/2) = 1 ∧ (3 : ℚ) * (1/2) = 3/2 := by
  refine ⟨?_, by norm_num, ?_, by norm_num⟩
  · unfold sample_height
    norm_num
    decide
  · unfold sample_width
    norm_num

/-- C10: for every frame size and `sample_rate` in `(0,1]`, the divisors of
the SquaredAverage arm — `sample_width` in `width / sample_width`,
`sample_height` in `height / sample_height`, and the final `samples` count —
are nonzero exactly under the precondition `⌊width * sample_rate⌋ ≥ 1`
(both sample dimensions are the truncation of `width * sample_rate`): under
the precondition every divisor is nonzero, a nonzero divisor forces
`1 ≤ width * sample_rate`, and `width * sample_rate < 1` makes the divisors
zero. -/
theorem squared_average_divisors_nonzero (width height : ℕ) (rate : ℚ)
    (hpos : 0 < rate) (hle : rate ≤ 1) :
    (1 ≤ sample_width width rate →
        sample_width width rate ≠ 0 ∧ sample_height width height rate ≠ 0 ∧
          samplesCount width height rate ≠ 0) ∧
      ((sample_width width rate ≠ 0 ∨ sample_height width height rate ≠ 0) →
        1 ≤ (width : ℚ) * rate) ∧
      ((width : ℚ) * rate < 1 →
        sample_width width rate = 0 ∧ sample_height width height rate = 0) := by
  have hsame : sample_height width height rate = sample_width width rate := rfl
  refine ⟨?_, ?_, ?_⟩
  · intro h1
    refine ⟨by omega, by omega, ?_⟩
    rw [samplesCount_eq, hsame]
    exact Nat.mul_ne_zero (by omega) (by omega)
  · intro h
    have hw : sample_width width rate ≠ 0 := by
      rcases h with h | h
      · exact h
      · rwa [hsame] at h
    have hfloor : 1 ≤ ⌊(width : ℚ) * rate⌋ := by
      by_contra hcon
      push_neg at hcon
      have : (⌊(width : ℚ) * rate⌋).toNat = 0 := by omega
      exact hw this
    exact_mod_cast Int.le_floor.mp hfloor
  · intro hlt
    have hfloor : ⌊(width : ℚ) * rate⌋ < 1 := by
      have := Int.floor_le ((width : ℚ) * rate)
      by_contra hcon
      push_neg at hcon
      have h1 : (1 : ℚ) ≤ (width : ℚ) * rate := by
        exact_mod_cast le_trans (by exact_mod_cast hcon) (Int.floor_le _)
      linarith
    have : (⌊(width : ℚ) * rate⌋).toNat = 0 := by omega
    exact ⟨this, by rwa [hsame]⟩

/-- C10, witness at `width = 4, height = 3, sample_rate = 1/2`. -/
theorem squared_average_divisors_nonzero_witness :
    (1 ≤ sample_width 4 (1/2) →
        sample_width 4 (1/2) ≠ 0 ∧ sample_height 4 3 (1/2) ≠ 0 ∧
          samplesCount 4 3 (1/2) ≠ 0) ∧
      ((sample_width 4 (1/2) ≠ 0 ∨ sample_height 4 3 (1/2) ≠ 0) →
        1 ≤ ((4 : ℕ) : ℚ) * (1/2)) ∧
      (((4 : ℕ) : ℚ) * (1/2) < 1 →
        sample_width 4 (1/2) = 0 ∧ sample_height 4 3 (1/2) = 0) :=
  squared_average_divisors_nonzero 4 3 (1/2) (by norm_num) (by norm_num)

/-- `glam::Vec3`, modelled over ℚ. -/
@[ext]
structure Vec3q where
  x : ℚ
  y : ℚ
  z : ℚ
deriving DecidableEq, Repr

/-- `main.rs:156`, the per-frame smoothing step:
`previous_pixel * COLOR_FADE + color * (1.0 - COLOR_FADE)`, componentwise,
where `color` is the post-gamma/HSL-corrected sample of the frame. -/
def fade_step (prev c : Vec3q) (fade : ℚ) : Vec3q :=
  ⟨prev.x * fade + c.x * (1 - fade),
   prev.y * fade + c.y * (1 - fade),
   prev.z * fade + c.z * (1 - fade)⟩

/-- The RunningColor after a sequence of corrected frame samples:
`previous_pixel` starts at `Vec3::ZERO` (`main.rs:76`) and each frame stores
the smoothed value back (`main.rs:157`). -/
def run_fade (fade : ℚ) (cs : List Vec3q) : Vec3q :=
  cs.foldl (fun prev c => fade_step prev c fade) ⟨0, 0, 0⟩

lemma fade_step_zero (prev c : Vec3q) : fade_step prev c 0 = c := by
  ext <;> simp [fade_step]

lemma fade_step_one (prev c : Vec3q) : fade_step prev c 1 = prev := by
  ext <;> simp [fade_step]

lemma foldl_fade_one (init : Vec3q) (cs : List Vec3q) :
    cs.foldl (fun prev c => fade_step prev c 1) init = init := by
  induction cs generalizing init with
  | nil => rfl
  | cons hd tl ih => simp [fade_step_one, ih]

/-- C8: each frame stores
`displayed = previous * fadeWeight + sample * (1 - fadeWeight)` as the new
RunningColor; with `fadeWeight = 0` the stored output equals that frame's
post-gamma/HSL sample, and with `fadeWeight = 1` the RunningColor never
changes from its initial value, black. -/
theorem fade_running_color (fade : ℚ) (prev c : Vec3q) (cs : List Vec3q) :
    run_fade fade (cs ++ [c]) = fade_step (run_fade fade cs) c fade ∧
      fade_step prev c 0 = c ∧
      run_fade 0 (cs ++ [c]) = c ∧
      run_fade 1 cs = ⟨0, 0, 0⟩ := by
  refine ⟨?_, fade_step_zero prev c, ?_, ?_⟩
  · simp [run_fade, List.foldl_append]
  · simp [run_fade, List.foldl_append, fade_step_zero]
  · exact foldl_fade_one _ cs

/-- `/255` normalization of one channel (`color / 255.0` in `main.rs`). -/
def chan (n : ℕ) : ℚ := (n : ℚ) / 255

/-- `main.rs:113-118`, the sort key of the MostDominant arm, computed in `u8`
arithmetic: `((max + min) * (max - min)) / max.max(1)` where `max`/`min` are
the largest/smallest channel. Each `u8` operation wraps modulo 256 (the
subtraction cannot underflow since `max ≥ min`, the addition and the
multiplication can and do wrap). -/
def contrast_key (c : Rgb) : ℕ :=
  let mx := max c.r (max c.g c.b)
  let mn := min c.r (min c.g c.b)
  ((mx + mn) % 256 * ((mx - mn) % 256) % 256) / (max mx 1)

/-- Modelled from the spec's words (C9): the "exact-integer contrast metric
`((max+min)*(max-min)) / max(max,1)`" computed in unbounded integers, for
comparison with the source's wrapping `u8` arithmetic. -/
def contrast_key_spec (c : Rgb) : ℕ :=
  let mx := max c.r (max c.g c.b)
  let mn := min c.r (min c.g c.b)
  (mx + mn) * (mx - mn) / (max mx 1)

/-- `sort_unstable_by_key` ascending on a two-element palette: swap exactly
when the second key is strictly smaller. -/
def sorted_pair (a b : Rgb) : Rgb × Rgb :=
  if contrast_key b < contrast_key a then (b, a) else (a, b)

/-- `main.rs:106-121`, MostDominant arm on the two-color palette `[a, b]`
returned by the external `color_thief::get_palette`: optionally reorder
ascending by `contrast_key`, then take the swatch at index 0. -/
def most_dominant (a b : Rgb) (sorted : Bool) : Rgb :=
  if sorted then (sorted_pair a b).1 else a

/-- `main.rs:121-122`: the selected dominant swatch normalized by 255. -/
def most_dominant_color (a b : Rgb) (sorted : Bool) : Vec3q :=
  let d := most_dominant a b sorted
  ⟨chan d.r, chan d.g, chan d.b⟩

/-- C9, counterexample at the two-color palette `[(200,100,0), (10,0,0)]`:
the source's `u8` key of `(200,100,0)` wraps (`200*200 mod 256 = 64`,
`64/200 = 0`) so the code keeps `(200,100,0)` at index 0, while the claimed
exact-integer metric (`200` vs `10`) would put `(10,0,0)` first — the claim's
description of the sort key as exact integer arithmetic is false. -/
theorem most_dominant_wrapping_counterexample :
    most_dominant ⟨200, 100, 0⟩ ⟨10, 0, 0⟩ true = ⟨200, 100, 0⟩ ∧
      contrast_key ⟨200, 100, 0⟩ = 0 ∧ contrast_key ⟨10, 0, 0⟩ = 10 ∧
      contrast_key_spec ⟨200, 100, 0⟩ = 200 ∧ contrast_key_spec ⟨10, 0, 0⟩ = 10 ∧
      (if contrast_key_spec (⟨10, 0, 0⟩ : Rgb) < contrast_key_spec (⟨200, 100, 0⟩ : Rgb)
        then (⟨10, 0, 0⟩ : Rgb) else ⟨200, 100, 0⟩) = ⟨10, 0, 0⟩ ∧
      (⟨200, 100, 0⟩ : Rgb) ≠ ⟨10, 0, 0⟩ := by
  decide

/-- C9, amended: with `sorted = true` the two-color palette is reordered
ascending by the contrast metric computed in wrapping 8-bit arithmetic —
`(((max+min) mod 256) * ((max-min) mod 256)) mod 256 / max(max,1)` — and the
swatch at index 0 is the one with the smaller wrapped key (ties keep the
natural order, so the first swatch wins); with `sorted = false` the natural
order is kept and index 0 is taken directly; the result is normalized
by 255. -/
theorem most_dominant_min_wrapped_key (a b : Rgb) (s : Bool) :
    most_dominant a b false = a ∧
      contrast_key (most_dominant a b true) = min (contrast_key a) (contrast_key b) ∧
      (most_dominant a b true = a ∨ most_dominant a b true = b) ∧
      (contrast_key a ≤ contrast_key b → most_dominant a b true = a) ∧
      most_dominant_color a b s =
        ⟨chan (most_dominant a b s).r, chan (most_dominant a b s).g,
          chan (most_dominant a b s).b⟩ := by
  refine ⟨rfl, ?_, ?_, ?_, rfl⟩
  · by_cases hk : contrast_key b < contrast_key a
    · simp [most_dominant, sorted_pair, hk]
      omega
    · simp [most_dominant, sorted_pair, hk]
      omega
  · by_cases hk : contrast_key b < contrast_key a
    · simp [most_dominant, sorted_pair, hk]
    · simp [most_dominant, sorted_pair, hk]
  · intro hle
    by_cases hk : contrast_key b < contrast_key a
    · omega
    · simp [most_dominant, sorted_pair, hk]

/-- C9, witness for the amended theorem at a concrete palette. -/
theorem most_dominant_min_wrapped_key_witness :
    most_dominant ⟨1, 2, 3⟩ ⟨4, 5, 6⟩ false = ⟨1, 2, 3⟩ ∧
      contrast_key (most_dominant ⟨1, 2, 3⟩ ⟨4, 5, 6⟩ true) =
        min (contrast_key ⟨1, 2, 3⟩) (contrast_key ⟨4, 5, 6⟩) ∧
      (most_dominant ⟨1, 2, 3⟩ ⟨4, 5, 6⟩ true = ⟨1, 2, 3⟩ ∨
        most_dominant ⟨1, 2, 3⟩ ⟨4, 5, 6⟩ true = ⟨4, 5, 6⟩) ∧
      (contrast_key ⟨1, 2, 3⟩ ≤ contrast_key ⟨4, 5, 6⟩ →
        most_dominant ⟨1, 2, 3⟩ ⟨4, 5, 6⟩ true = ⟨1, 2, 3⟩) ∧
      most_dominant_color ⟨1, 2, 3⟩ ⟨4, 5, 6⟩ true =
        ⟨chan (most_dominant ⟨1, 2, 3⟩ ⟨4, 5, 6⟩ true).r,
          chan (most_dominant ⟨1, 2, 3⟩ ⟨4, 5, 6⟩ true).g,
          chan (most_dominant ⟨1, 2, 3⟩ ⟨4, 5, 6⟩ true).b⟩ :=
  most_dominant_min_wrapped_key ⟨1, 2, 3⟩ ⟨4, 5, 6⟩ true

/-- hsl crate, `HSL::from_rgb`: largest channel after division by 255. -/
def hslMax (c : Rgb) : ℚ := max (chan c.r) (max (chan c.g) (chan c.b))

/-- hsl crate, `HSL::from_rgb`: smallest channel after division by 255. -/
def hslMin (c : Rgb) : ℚ := min (chan c.r) (min (chan c.g) (chan c.b))

/-- hsl crate, `HSL::from_rgb`: lightness `l = (max + min) / 2`. -/
def hslL (c : Rgb) : ℚ := (hslMax c + hslMin c) / 2

/-- hsl crate, `HSL::from_rgb`: saturation, 0 on achromatic pixels, else
`delta / (2 - max - min)` when `l > 0.5` and `delta / (max + min)` otherwise. -/
def hslS (c : Rgb) : ℚ :=
  if hslMax c = hslMin c then 0
  else if 1/2 < hslL c then (hslMax c - hslMin c) / (2 - hslMax c - hslMin c)
  else (hslMax c - hslMin c) / (hslMax c + hslMin c)

/-- `vibrant.rs, settings`. -/
def TARGET_DARK_LUMA : ℚ := 26/100

def MAX_DARK_LUMA : ℚ := 45/100

def MIN_LIGHT_LUMA : ℚ := 55/100

def TARGET_LIGHT_LUMA : ℚ := 74/100

def MIN_NORMAL_LUMA : ℚ := 3/10

def TARGET_NORMAL_LUMA : ℚ := 5/10

def MAX_NORMAL_LUMA : ℚ := 7/10

def TARGET_MUTED_SATURATION : ℚ := 3/10

def MAX_MUTED_SATURATION : ℚ := 4/10

def TARGET_VIBRANT_SATURATION : ℚ := 1

def MIN_VIBRANT_SATURATION : ℚ := 35/100

def WEIGHT_SATURATION : ℚ := 3

def WEIGHT_LUMA : ℚ := 6

def WEIGHT_POPULATION : ℚ := 1

/-- `vibrant.rs, Vibrancy`: the six optional category swatches
(`Default` derives to all-`None`). -/
structure Vibrancy where
  primary : Option Rgb := none
  dark : Option Rgb := none
  light : Option Rgb := none
  muted : Option Rgb := none
  dark_muted : Option Rgb := none
  light_muted : Option Rgb := none
deriving DecidableEq, Repr

/-- `vibrant.rs, Vibrancy::color_already_set`: the color equals one of the
already-assigned category swatches. -/
def color_already_set (v : Vibrancy) (c : Rgb) : Prop :=
  v.primary = some c ∨ v.dark = some c ∨ v.light = some c ∨ v.muted = some c ∨
    v.dark_muted = some c ∨ v.light_muted = some c

instance instDecColorAlreadySet (v : Vibrancy) (c : Rgb) : Decidable (color_already_set v c) := by
  unfold color_already_set
  infer_instance

/-- `vibrant.rs, MTM`: minimum, target, maximum. -/
structure MTM where
  min : ℚ
  target : ℚ
  max : ℚ

/-- `vibrant.rs, invert_diff`: `1 - |val - target_val|`. -/
def invert_diff (val target_val : ℚ) : ℚ := 1 - |val - target_val|

/-- `vibrant.rs, weighted_mean`: fold of `(sum + val*weight, sum_weight + weight)`
then `sum / sum_weight`. -/
def weighted_mean (vals : List (ℚ × ℚ)) : ℚ :=
  let p := vals.foldl (fun acc vw => (acc.1 + vw.1 * vw.2, acc.2 + vw.2)) (0, 0)
  p.1 / p.2

/-- `vibrant.rs, create_comparison_value`: weighted mean of the inverted
saturation distance (weight 3), inverted luma distance (weight 6) and the
population share (weight 1). -/
def create_comparison_value (sat target_sat luma target_uma population max_population : ℚ) : ℚ :=
  weighted_mean [(invert_diff sat target_sat, WEIGHT_SATURATION),
                 (invert_diff luma target_uma, WEIGHT_LUMA),
                 (population / max_population, WEIGHT_POPULATION)]

/-- `pixel_counts.get(&index).unwrap_or(&0)` on the association-list model. -/
def countOf (pc : List (ℕ × ℕ)) (i : ℕ) : ℕ := (pc.lookup i).getD 0

/-- `vibrant.rs, Vibrancy::find_color_variation`, the `for` loop over the
enumerated palette: `i` is the running index, `best`/`bestVal` the `max` and
`max_value` accumulators. A swatch is examined when its saturation and
lightness lie in the ranges and it is not already set; a zero population is
skipped (`continue`); the accumulator is replaced when empty or on a strictly
greater comparison value. -/
def fcvLoop (v : Vibrancy) (pc : List (ℕ × ℕ)) (luma sat : MTM) (total : ℚ) :
    List Rgb → ℕ → Option Rgb → ℚ → Option Rgb
  | [], _, best, _ => best
  | c :: rest, i, best, bestVal =>
    if sat.min ≤ hslS c ∧ hslS c ≤ sat.max ∧ luma.min ≤ hslL c ∧ hslL c ≤ luma.max ∧
        ¬ color_already_set v c then
      if countOf pc i = 0 then
        fcvLoop v pc luma sat total rest (i + 1) best bestVal
      else
        let value := create_comparison_value (hslS c) sat.target (hslL c) luma.target
          (countOf pc i : ℚ) total
        if best = none ∨ bestVal < value then
          fcvLoop v pc luma sat total rest (i + 1) (some c) value
        else
          fcvLoop v pc luma sat total rest (i + 1) best bestVal
    else
      fcvLoop v pc luma sat total rest (i + 1) best bestVal

/-- `vibrant.rs, Vibrancy::find_color_variation`: the complete population is
the sum of all histogram values; the loop starts with no best swatch and
`max_value = 0`. -/
def find_color_variation (v : Vibrancy) (palette : List Rgb) (pc : List (ℕ × ℕ))
    (luma sat : MTM) : Option Rgb :=
  fcvLoop v pc luma sat ((sumValues pc : ℕ) : ℚ) palette 0 none 0

/-- Eligibility of the swatch at palette index `i`, exactly the conditions
under which the loop computes a comparison value for it. -/
def Elig (v : Vibrancy) (pc : List (ℕ × ℕ)) (luma sat : MTM) (i : ℕ) (c : Rgb) : Prop :=
  sat.min ≤ hslS c ∧ hslS c ≤ sat.max ∧ luma.min ≤ hslL c ∧ hslL c ≤ luma.max ∧
    ¬ color_already_set v c ∧ 0 < countOf pc i

/-- The comparison value of the swatch at palette index `i`. -/
def scoreOf (pc : List (ℕ × ℕ)) (luma sat : MTM) (total : ℚ) (i : ℕ) (c : Rgb) : ℚ :=
  create_comparison_value (hslS c) sat.target (hslL c) luma.target (countOf pc i : ℚ) total

/-- Every eligible swatch of `L` (palette indices shifted by `n`) scores at
most `q`. -/
def ScoreUB (v : Vibrancy) (pc : List (ℕ × ℕ)) (luma sat : MTM) (total : ℚ)
    (L : List Rgb) (n : ℕ) (q : ℚ) : Prop :=
  ∀ k c, L[k]? = some c → Elig v pc luma sat (n + k) c →
    scoreOf pc luma sat total (n + k) c ≤ q

/-- No swatch of `L` (palette indices shifted by `n`) is eligible. -/
def NoEligOn (v : Vibrancy) (pc : List (ℕ × ℕ)) (luma sat : MTM)
    (L : List Rgb) (n : ℕ) : Prop :=
  ∀ k c, L[k]? = some c → ¬ Elig v pc luma sat (n + k) c

/-- The swatch `c` at relative position `k` of `L` is eligible, maximizes the
score among the eligible swatches of `L`, and strictly beats every eligible
swatch before it. -/
def FirstMax (v : Vibrancy) (pc : List (ℕ × ℕ)) (luma sat : MTM) (total : ℚ)
    (L : List Rgb) (n k : ℕ) (c : Rgb) : Prop :=
  L[k]? = some c ∧ Elig v pc luma sat (n + k) c ∧
    ScoreUB v pc luma sat total L n (scoreOf pc luma sat total (n + k) c) ∧
    ∀ m cm, m < k → L[m]? = some cm → Elig v pc luma sat (n + m) cm →
      scoreOf pc luma sat total (n + m) cm < scoreOf pc luma sat total (n + k) c

lemma ScoreUB_cons (v : Vibrancy) (pc : List (ℕ × ℕ)) (luma sat : MTM) (total : ℚ)
    (c : Rgb) (rest : List Rgb) (n : ℕ) (q : ℚ) :
    ScoreUB v pc luma sat total (c :: rest) n q ↔
      (Elig v pc luma sat n c → scoreOf pc luma sat total n c ≤ q) ∧
        ScoreUB v pc luma sat total rest (n + 1) q := by
  constructor
  · intro h
    refine ⟨?_, ?_⟩
    · intro he
      simpa using h 0 c (by simp) (by simpa using he)
    · intro k ck hk he
      have := h (k + 1) ck (by simpa using hk)
      rw [show n + (k + 1) = n + 1 + k by omega] at this
      exact this he
  · rintro ⟨h0, hrest⟩ k ck hk he
    match k with
    | 0 =>
      simp at hk
      subst hk
      simpa using h0 (by simpa using he)
    | k + 1 =>
      simp only [List.getElem?_cons_succ] at hk
      have := hrest k ck hk
      rw [show n + 1 + k = n + (k + 1) by omega] at this
      exact this he

lemma NoEligOn_cons (v : Vibrancy) (pc : List (ℕ × ℕ)) (luma sat : MTM)
    (c : Rgb) (rest : List Rgb) (n : ℕ) :
    NoEligOn v pc luma sat (c :: rest) n ↔
      ¬ Elig v pc luma sat n c ∧ NoEligOn v pc luma sat rest (n + 1) := by
  constructor
  · intro h
    refine ⟨by simpa using h 0 c (by simp), ?_⟩
    intro k ck hk
    have := h (k + 1) ck (by simpa using hk)
    rwa [show n + (k + 1) = n + 1 + k by omega] at this
  · rintro ⟨h0, hrest⟩ k ck hk
    match k with
    | 0 =>
      simp at hk
      subst hk
      simpa using h0
    | k + 1 =>
      simp only [List.getElem?_cons_succ] at hk
      have := hrest k ck hk
      rwa [show n + (k + 1) = n + 1 + k by omega]

lemma Elig_cond (v : Vibrancy) (pc : List (ℕ × ℕ)) (luma sat : MTM) (n : ℕ) (c : Rgb)
    (he : Elig v pc luma sat n c) :
    sat.min ≤ hslS c ∧ hslS c ≤ sat.max ∧ luma.min ≤ hslL c ∧ hslL c ≤ luma.max ∧
      ¬ color_already_set v c :=
  ⟨he.1, he.2.1, he.2.2.1, he.2.2.2.1, he.2.2.2.2.1⟩

lemma FirstMax_cons_self (v : Vibrancy) (pc : List (ℕ × ℕ)) (luma sat : MTM) (total : ℚ)
    (c : Rgb) (rest : List Rgb) (n : ℕ)
    (he : Elig v pc luma sat n c)
    (hub : ScoreUB v pc luma sat total rest (n + 1) (scoreOf pc luma sat total n c)) :
    FirstMax v pc luma sat total (c :: rest) n 0 c := by
  refine ⟨by simp, he, ?_, ?_⟩
  · rw [ScoreUB_cons]
    exact ⟨fun _ => le_refl _, hub⟩
  · intro m cm hm
    omega

lemma FirstMax_cons_rest (v : Vibrancy) (pc : List (ℕ × ℕ)) (luma sat : MTM) (total : ℚ)
    (c : Rgb) (rest : List Rgb) (n k : ℕ) (c' : Rgb)
    (h : FirstMax v pc luma sat total rest (n + 1) k c')
    (hheadlt : Elig v pc luma sat n c →
      scoreOf pc luma sat total n c < scoreOf pc luma sat total (n + 1 + k) c') :
    FirstMax v pc luma sat total (c :: rest) n (k + 1) c' := by
  obtain ⟨hmem, helig, hub, hfirst⟩ := h
  have hidx : n + (k + 1) = n + 1 + k := by omega
  refine ⟨by simpa using hmem, by rwa [hidx], ?_, ?_⟩
  · rw [ScoreUB_cons, hidx]
    exact ⟨fun he => le_of_lt (hheadlt he), hub⟩
  · intro m cm hm hmmem hmelig
    rw [hidx]
    match m with
    | 0 =>
      simp at hmmem
      subst hmmem
      exact hheadlt hmelig
    | m + 1 =>
      simp only [List.getElem?_cons_succ] at hmmem
      have hm' : m < k := by omega
      have hmelig' : Elig v pc luma sat (n + 1 + m) cm := by
        rwa [show n + (m + 1) = n + 1 + m by omega] at hmelig
      have := hfirst m cm hm' hmmem hmelig'
      rwa [show n + 1 + m = n + (m + 1) by omega] at this

lemma fcvLoop_some_spec (v : Vibrancy) (pc : List (ℕ × ℕ)) (luma sat : MTM) (total : ℚ)
    (L : List Rgb) : ∀ (n : ℕ) (b : Rgb) (bv : ℚ),
    (fcvLoop v pc luma sat total L n (some b) bv = some b ∧
      ScoreUB v pc luma sat total L n bv) ∨
    (∃ k c, fcvLoop v pc luma sat total L n (some b) bv = some c ∧
      FirstMax v pc luma sat total L n k c ∧ bv < scoreOf pc luma sat total (n + k) c) := by
  induction L with
  | nil =>
    intro n b bv
    exact Or.inl ⟨rfl, fun k c hk => by simp at hk⟩
  | cons c rest ih =>
    intro n b bv
    by_cases hcond : sat.min ≤ hslS c ∧ hslS c ≤ sat.max ∧ luma.min ≤ hslL c ∧
        hslL c ≤ luma.max ∧ ¬ color_already_set v c
    case neg =>
      have hne : ¬ Elig v pc luma sat n c := fun he => hcond (Elig_cond v pc luma sat n c he)
      have hstep : fcvLoop v pc luma sat total (c :: rest) n (some b) bv =
          fcvLoop v pc luma sat total rest (n + 1) (some b) bv := by
        simp [fcvLoop, hcond]
      rcases ih (n + 1) b bv with ⟨heq, hub⟩ | ⟨k, c', heq, hfm, hlt⟩
      · left
        refine ⟨hstep ▸ heq, ?_⟩
        rw [ScoreUB_cons]
        exact ⟨fun he => absurd he hne, hub⟩
      · right
        refine ⟨k + 1, c', hstep ▸ heq, ?_, ?_⟩
        · exact FirstMax_cons_rest v pc luma sat total c rest n k c' hfm
            (fun he => absurd he hne)
        · rwa [show n + (k + 1) = n + 1 + k by omega]
    case pos =>
      by_cases hzero : countOf pc n = 0
      case pos =>
        have hne : ¬ Elig v pc luma sat n c := fun he => by
          have := he.2.2.2.2.2
          omega
        have hstep : fcvLoop v pc luma sat total (c :: rest) n (some b) bv =
            fcvLoop v pc luma sat total rest (n + 1) (some b) bv := by
          simp [fcvLoop, hcond, hzero]
        rcases ih (n + 1) b bv with ⟨heq, hub⟩ | ⟨k, c', heq, hfm, hlt⟩
        · left
          refine ⟨hstep ▸ heq, ?_⟩
          rw [ScoreUB_cons]
          exact ⟨fun he => absurd he hne, hub⟩
        · right
          refine ⟨k + 1, c', hstep ▸ heq, ?_, ?_⟩
          · exact FirstMax_cons_rest v pc luma sat total c rest n k c' hfm
              (fun he => absurd he hne)
          · rwa [show n + (k + 1) = n + 1 + k by omega]
      case neg =>
        have helig : Elig v pc luma sat n c :=
          ⟨hcond.1, hcond.2.1, hcond.2.2.1, hcond.2.2.2.1, hcond.2.2.2.2, by omega⟩
        by_cases hup : bv < scoreOf pc luma sat total n c
        case pos =>
          have hc2 : some b = none ∨ bv < create_comparison_value (hslS c) sat.target
              (hslL c) luma.target ((countOf pc n : ℚ)) total := Or.inr hup
          have hstep : fcvLoop v pc luma sat total (c :: rest) n (some b) bv =
              fcvLoop v pc luma sat total rest (n + 1) (some c)
                (scoreOf pc luma sat total n c) := by
            simp only [fcvLoop]
            rw [if_pos hcond, if_neg hzero, if_pos hc2]
            rfl
          rcases ih (n + 1) c (scoreOf pc luma sat total n c) with ⟨heq, hub⟩ |
            ⟨k, c', heq, hfm, hlt⟩
          · right
            exact ⟨0, c, hstep ▸ heq,
              FirstMax_cons_self v pc luma sat total c rest n helig hub, hup⟩
          · right
            refine ⟨k + 1, c', hstep ▸ heq, ?_, ?_⟩
            · exact FirstMax_cons_rest v pc luma sat total c rest n k c' hfm (fun _ => hlt)
            · rw [show n + (k + 1) = n + 1 + k by omega]
              exact lt_trans hup hlt
        case neg =>
          have hc2 : ¬ (some b = none ∨ bv < create_comparison_value (hslS c) sat.target
              (hslL c) luma.target ((countOf pc n : ℚ)) total) := by
            rintro (h | h)
            · exact Option.some_ne_none b h
            · exact hup h
          have hstep : fcvLoop v pc luma sat total (c :: rest) n (some b) bv =
              fcvLoop v pc luma sat total rest (n + 1) (some b) bv := by
            simp only [fcvLoop]
            rw [if_pos hcond, if_neg hzero, if_neg hc2]
          rcases ih (n + 1) b bv with ⟨heq, hub⟩ | ⟨k, c', heq, hfm, hlt⟩
          · left
            refine ⟨hstep ▸ heq, ?_⟩
            rw [ScoreUB_cons]
            exact ⟨fun _ => le_of_not_lt hup, hub⟩
          · right
            refine ⟨k + 1, c', hstep ▸ heq, ?_, ?_⟩
            · exact FirstMax_cons_rest v pc luma sat total c rest n k c' hfm
                (fun _ => lt_of_le_of_lt (le_of_not_lt hup) hlt)
            · rwa [show n + (k + 1) = n + 1 + k by omega]

lemma fcvLoop_none_spec (v : Vibrancy) (pc : List (ℕ × ℕ)) (luma sat : MTM) (total : ℚ)
    (L : List Rgb) : ∀ (n : ℕ) (bv : ℚ),
    (fcvLoop v pc luma sat total L n none bv = none ∧ NoEligOn v pc luma sat L n) ∨
    (∃ k c, fcvLoop v pc luma sat total L n none bv = some c ∧
      FirstMax v pc luma sat total L n k c) := by
  induction L with
  | nil =>
    intro n bv
    exact Or.inl ⟨rfl, fun k c hk => by simp at hk⟩
  | cons c rest ih =>
    intro n bv
    by_cases hcond : sat.min ≤ hslS c ∧ hslS c ≤ sat.max ∧ luma.min ≤ hslL c ∧
        hslL c ≤ luma.max ∧ ¬ color_already_set v c
    case neg =>
      have hne : ¬ Elig v pc luma sat n c := fun he => hcond (Elig_cond v pc luma sat n c he)
      have hstep : fcvLoop v pc luma sat total (c :: rest) n none bv =
          fcvLoop v pc luma sat total rest (n + 1) none bv := by
        simp [fcvLoop, hcond]
      rcases ih (n + 1) bv with ⟨heq, hno⟩ | ⟨k, c', heq, hfm⟩
      · left
        refine ⟨hstep ▸ heq, ?_⟩
        rw [NoEligOn_cons]
        exact ⟨hne, hno⟩
      · right
        exact ⟨k + 1, c', hstep ▸ heq,
          FirstMax_cons_rest v pc luma sat total c rest n k c' hfm (fun he => absurd he hne)⟩
    case pos =>
      by_cases hzero : countOf pc n = 0
      case pos =>
        have hne : ¬ Elig v pc luma sat n c := fun he => by
          have := he.2.2.2.2.2
          omega
        have hstep : fcvLoop v pc luma sat total (c :: rest) n none bv =
            fcvLoop v pc luma sat total rest (n + 1) none bv := by
          simp [fcvLoop, hcond, hzero]
        rcases ih (n + 1) bv with ⟨heq, hno⟩ | ⟨k, c', heq, hfm⟩
        · left
          refine ⟨hstep ▸ heq, ?_⟩
          rw [NoEligOn_cons]
          exact ⟨hne, hno⟩
        · right
          exact ⟨k + 1, c', hstep ▸ heq,
            FirstMax_cons_rest v pc luma sat total c rest n k c' hfm (fun he => absurd he hne)⟩
      case neg =>
        have helig : Elig v pc luma sat n c :=
          ⟨hcond.1, hcond.2.1, hcond.2.2.1, hcond.2.2.2.1, hcond.2.2.2.2, by omega⟩
        have hstep : fcvLoop v pc luma sat total (c :: rest) n none bv =
            fcvLoop v pc luma sat total rest (n + 1) (some c)
              (scoreOf pc luma sat total n c) := by
          simp only [fcvLoop]
          rw [if_pos hcond, if_neg hzero, if_pos (Or.inl trivial)]
          rfl
        rcases fcvLoop_some_spec v pc luma sat total rest (n + 1) c
            (scoreOf pc luma sat total n c) with ⟨heq, hub⟩ | ⟨k, c', heq, hfm, hlt⟩
        · right
          exact ⟨0, c, hstep ▸ heq,
            FirstMax_cons_self v pc luma sat total c rest n helig hub⟩
        · right
          exact ⟨k + 1, c', hstep ▸ heq,
            FirstMax_cons_rest v pc luma sat total c rest n k c' hfm (fun _ => hlt)⟩

lemma find_color_variation_none_iff (v : Vibrancy) (palette : List Rgb)
    (pc : List (ℕ × ℕ)) (luma sat : MTM) :
    find_color_variation v palette pc luma sat = none ↔
      ∀ i c, palette[i]? = some c → ¬ Elig v pc luma sat i c := by
  rcases fcvLoop_none_spec v pc luma sat ((sumValues pc : ℕ) : ℚ) palette 0 0 with
    ⟨heq, hno⟩ | ⟨k, c, heq, hfm⟩
  · constructor
    · intro _ i c hi
      simpa using hno i c hi
    · intro _
      exact heq
  · rw [find_color_variation, heq]
    constructor
    · intro h
      exact absurd h (by simp)
    · intro h
      exact absurd (hfm.2.1) (by simpa using h k c (by simpa using hfm.1))

lemma scoreOf_formula (pc : List (ℕ × ℕ)) (luma sat : MTM) (total : ℚ) (i : ℕ) (c : Rgb) :
    scoreOf pc luma sat total i c =
      ((1 - |hslS c - sat.target|) * 3 + (1 - |hslL c - luma.target|) * 6 +
        ((countOf pc i : ℚ) / total) * 1) / 10 := by
  simp only [scoreOf, create_comparison_value, weighted_mean, invert_diff,
    WEIGHT_SATURATION, WEIGHT_LUMA, WEIGHT_POPULATION, List.foldl_cons, List.foldl_nil]
  norm_num

lemma find_color_variation_not_already_set (v : Vibrancy) (palette : List Rgb)
    (pc : List (ℕ × ℕ)) (luma sat : MTM) (c : Rgb)
    (h : find_color_variation v palette pc luma sat = some c) :
    ¬ color_already_set v c := by
  rcases fcvLoop_none_spec v pc luma sat ((sumValues pc : ℕ) : ℚ) palette 0 0 with
    ⟨heq, _⟩ | ⟨k, c', heq, hfm⟩
  · rw [find_color_variation, heq] at h
    cases h
  · rw [find_color_variation, heq] at h
    injection h with h'
    subst h'
    exact hfm.2.1.2.2.2.2.1

/-- C5: `find_color_variation` returns `None` exactly when no swatch is
eligible (saturation in `[sat.min, sat.max]`, lightness in
`[luma.min, luma.max]`, positive histogram population, not already
assigned); otherwise it returns the earliest-enumerated eligible swatch
maximizing the comparison value, replacement happening only on a strictly
greater value so ties go to the earliest swatch; and the comparison value is
the weighted mean `((1-|s-sat.target|)*3 + (1-|l-luma.target|)*6 +
(population/total_population)*1) / 10`. -/
theorem find_color_variation_picks_first_best (v : Vibrancy) (palette : List Rgb)
    (pc : List (ℕ × ℕ)) (luma sat : MTM) :
    (find_color_variation v palette pc luma sat = none →
      ∀ i c, palette[i]? = some c → ¬ Elig v pc luma sat i c) ∧
    (∀ c, find_color_variation v palette pc luma sat = some c →
      ∃ k, palette[k]? = some c ∧ Elig v pc luma sat k c ∧
        (∀ i ci, palette[i]? = some ci → Elig v pc luma sat i ci →
          scoreOf pc luma sat ((sumValues pc : ℕ) : ℚ) i ci ≤
            scoreOf pc luma sat ((sumValues pc : ℕ) : ℚ) k c) ∧
        (∀ i ci, i < k → palette[i]? = some ci → Elig v pc luma sat i ci →
          scoreOf pc luma sat ((sumValues pc : ℕ) : ℚ) i ci <
            scoreOf pc luma sat ((sumValues pc : ℕ) : ℚ) k c)) ∧
    (∀ i c, scoreOf pc luma sat ((sumValues pc : ℕ) : ℚ) i c =
      ((1 - |hslS c - sat.target|) * 3 + (1 - |hslL c - luma.target|) * 6 +
        ((countOf pc i : ℚ) / ((sumValues pc : ℕ) : ℚ)) * 1) / 10) := by
  refine ⟨fun h => (find_color_variation_none_iff v palette pc luma sat).mp h, ?_,
    fun i c => scoreOf_formula pc luma sat _ i c⟩
  intro c h
  rcases fcvLoop_none_spec v pc luma sat ((sumValues pc : ℕ) : ℚ) palette 0 0 with
    ⟨heq, _⟩ | ⟨k, c', heq, hfm⟩
  · rw [find_color_variation, heq] at h
    cases h
  · rw [find_color_variation, heq] at h
    injection h with h'
    subst h'
    obtain ⟨hmem, helig, hub, hfirst⟩ := hfm
    simp only [Nat.zero_add] at hmem helig hub hfirst
    refine ⟨k, hmem, helig, ?_, ?_⟩
    · intro i ci hi hei
      have := hub i ci hi (by simpa using hei)
      simpa using this
    · intro i ci hik hi hei
      have := hfirst i ci hik hi (by simpa using hei)
      simpa using this

/-- Luma range of the primary and muted categories (`vibrant.rs:101-105`). -/
def lumaNormal : MTM := ⟨MIN_NORMAL_LUMA, TARGET_NORMAL_LUMA, MAX_NORMAL_LUMA⟩

/-- Luma range of the light and light_muted categories. -/
def lumaLight : MTM := ⟨MIN_LIGHT_LUMA, TARGET_LIGHT_LUMA, 1⟩

/-- Luma range of the dark and dark_muted categories. -/
def lumaDark : MTM := ⟨0, TARGET_DARK_LUMA, MAX_DARK_LUMA⟩

/-- Saturation range of the vibrant categories. -/
def satVibrant : MTM := ⟨MIN_VIBRANT_SATURATION, TARGET_VIBRANT_SATURATION, 1⟩

/-- Saturation range of the muted categories. -/
def satMuted : MTM := ⟨0, TARGET_MUTED_SATURATION, MAX_MUTED_SATURATION⟩

/-- `vibrant.rs, generate_varation_colors`, after the first assignment:
primary chosen from the all-`None` state. -/
def vib1 (pal : List Rgb) (pc : List (ℕ × ℕ)) : Vibrancy :=
  { primary := find_color_variation {} pal pc lumaNormal satVibrant }

/-- After the second assignment: light chosen with primary set. -/
def vib2 (pal : List Rgb) (pc : List (ℕ × ℕ)) : Vibrancy :=
  { vib1 pal pc with light := find_color_variation (vib1 pal pc) pal pc lumaLight satVibrant }

/-- After the third assignment: dark chosen with primary and light set. -/
def vib3 (pal : List Rgb) (pc : List (ℕ × ℕ)) : Vibrancy :=
  { vib2 pal pc with dark := find_color_variation (vib2 pal pc) pal pc lumaDark satVibrant }

/-- After the fourth assignment: muted. -/
def vib4 (pal : List Rgb) (pc : List (ℕ × ℕ)) : Vibrancy :=
  { vib3 pal pc with muted := find_color_variation (vib3 pal pc) pal pc lumaNormal satMuted }

/-- After the fifth assignment: light_muted. -/
def vib5 (pal : List Rgb) (pc : List (ℕ × ℕ)) : Vibrancy :=
  { vib4 pal pc with
    light_muted := find_color_variation (vib4 pal pc) pal pc lumaLight satMuted }

/-- `vibrant.rs, generate_varation_colors`: the six categories assigned
sequentially in the order primary, light, dark, muted, light_muted,
dark_muted, each selection seeing the previously assigned swatches. -/
def generate_varation_colors (pal : List Rgb) (pc : List (ℕ × ℕ)) : Vibrancy :=
  { vib5 pal pc with
    dark_muted := find_color_variation (vib5 pal pc) pal pc lumaDark satMuted }

/-- `vibrant.rs, Vibrancy::new`: generate the vibrancy map from a palette. -/
def Vibrancy.new (p : Palette) : Vibrancy :=
  generate_varation_colors p.palette p.pixel_counts

lemma not_color_already_set_fields (v : Vibrancy) (c : Rgb)
    (h : ¬ color_already_set v c) :
    v.primary ≠ some c ∧ v.dark ≠ some c ∧ v.light ≠ some c ∧ v.muted ≠ some c ∧
      v.dark_muted ≠ some c ∧ v.light_muted ≠ some c := by
  unfold color_already_set at h
  push_neg at h
  exact h

/-- C6: `generate_varation_colors` never assigns the same swatch to two
categories; the categories are assigned in the fixed order primary, light,
dark, muted, light_muted, dark_muted, each selection running against the
state holding exactly the previously assigned categories; and a category is
`None` exactly when no swatch is eligible for it at its stage. -/
theorem generate_varation_colors_no_duplicate (pal : List Rgb) (pc : List (ℕ × ℕ)) :
    ([(generate_varation_colors pal pc).primary, (generate_varation_colors pal pc).light,
      (generate_varation_colors pal pc).dark, (generate_varation_colors pal pc).muted,
      (generate_varation_colors pal pc).light_muted,
      (generate_varation_colors pal pc).dark_muted].Pairwise
        (fun a b => ∀ c : Rgb, b = some c → a ≠ some c)) ∧
    (generate_varation_colors pal pc).primary =
      find_color_variation {} pal pc lumaNormal satVibrant ∧
    (generate_varation_colors pal pc).light =
      find_color_variation { primary := (generate_varation_colors pal pc).primary }
        pal pc lumaLight satVibrant ∧
    (generate_varation_colors pal pc).dark =
      find_color_variation
        { primary := (generate_varation_colors pal pc).primary
          light := (generate_varation_colors pal pc).light } pal pc lumaDark satVibrant ∧
    (generate_varation_colors pal pc).muted =
      find_color_variation
        { primary := (generate_varation_colors pal pc).primary
          light := (generate_varation_colors pal pc).light
          dark := (generate_varation_colors pal pc).dark } pal pc lumaNormal satMuted ∧
    (generate_varation_colors pal pc).light_muted =
      find_color_variation
        { primary := (generate_varation_colors pal pc).primary
          light := (generate_varation_colors pal pc).light
          dark := (generate_varation_colors pal pc).dark
          muted := (generate_varation_colors pal pc).muted } pal pc lumaLight satMuted ∧
    (generate_varation_colors pal pc).dark_muted =
      find_color_variation
        { primary := (generate_varation_colors pal pc).primary
          light := (generate_varation_colors pal pc).light
          dark := (generate_varation_colors pal pc).dark
          muted := (generate_varation_colors pal pc).muted
          light_muted := (generate_varation_colors pal pc).light_muted }
        pal pc lumaDark satMuted ∧
    (∀ (v : Vibrancy) (lm sm : MTM), find_color_variation v pal pc lm sm = none ↔
      ∀ i c, pal[i]? = some c → ¬ Elig v pc lm sm i c) := by
  have hLight := fun (c : Rgb)
      (hc : find_color_variation (vib1 pal pc) pal pc lumaLight satVibrant = some c) =>
    not_color_already_set_fields _ c
      (find_color_variation_not_already_set (vib1 pal pc) pal pc lumaLight satVibrant c hc)
  have hDark := fun (c : Rgb)
      (hc : find_color_variation (vib2 pal pc) pal pc lumaDark satVibrant = some c) =>
    not_color_already_set_fields _ c
      (find_color_variation_not_already_set (vib2 pal pc) pal pc lumaDark satVibrant c hc)
  have hMut := fun (c : Rgb)
      (hc : find_color_variation (vib3 pal pc) pal pc lumaNormal satMuted = some c) =>
    not_color_already_set_fields _ c
      (find_color_variation_not_already_set (vib3 pal pc) pal pc lumaNormal satMuted c hc)
  have hLM := fun (c : Rgb)
      (hc : find_color_variation (vib4 pal pc) pal pc lumaLight satMuted = some c) =>
    not_color_already_set_fields _ c
      (find_color_variation_not_already_set (vib4 pal pc) pal pc lumaLight satMuted c hc)
  have hDM := fun (c : Rgb)
      (hc : find_color_variation (vib5 pal pc) pal pc lumaDark satMuted = some c) =>
    not_color_already_set_fields _ c
      (find_color_variation_not_already_set (vib5 pal pc) pal pc lumaDark satMuted c hc)
  refine ⟨?_, rfl, rfl, rfl, rfl, rfl, rfl,
    fun v lm sm => find_color_variation_none_iff v pal pc lm sm⟩
  refine List.Pairwise.cons ?_ (List.Pairwise.cons ?_ (List.Pairwise.cons ?_
    (List.Pairwise.cons ?_ (List.Pairwise.cons ?_ (List.Pairwise.cons
      (fun b hb => absurd hb (List.not_mem_nil b)) List.Pairwise.nil)))))
  · intro b hb
    simp only [List.mem_cons, List.not_mem_nil, or_false] at hb
    rcases hb with hb | hb | hb | hb | hb
    · subst hb
      intro c hc
      exact (hLight c hc).1
    · subst hb
      intro c hc
      exact (hDark c hc).1
    · subst hb
      intro c hc
      exact (hMut c hc).1
    · subst hb
      intro c hc
      exact (hLM c hc).1
    · subst hb
      intro c hc
      exact (hDM c hc).1
  · intro b hb
    simp only [List.mem_cons, List.not_mem_nil, or_false] at hb
    rcases hb with hb | hb | hb | hb
    · subst hb
      intro c hc
      exact (hDark c hc).2.2.1
    · subst hb
      intro c hc
      exact (hMut c hc).2.2.1
    · subst hb
      intro c hc
      exact (hLM c hc).2.2.1
    · subst hb
      intro c hc
      exact (hDM c hc).2.2.1
  · intro b hb
    simp only [List.mem_cons, List.not_mem_nil, or_false] at hb
    rcases hb with hb | hb | hb
    · subst hb
      intro c hc
      exact (hMut c hc).2.1
    · subst hb
      intro c hc
      exact (hLM c hc).2.1
    · subst hb
      intro c hc
      exact (hDM c hc).2.1
  · intro b hb
    simp only [List.mem_cons, List.not_mem_nil, or_false] at hb
    rcases hb with hb | hb
    · subst hb
      intro c hc
      exact (hLM c hc).2.2.2.1
    · subst hb
      intro c hc
      exact (hDM c hc).2.2.2.1
  · intro b hb
    simp only [List.mem_cons, List.not_mem_nil, or_false] at hb
    subst hb
    intro c hc
    exact (hDM c hc).2.2.2.2.2

/-- `main.rs:138-145`, Vibrancy arm: the fallback chain
`primary.or(light).or(light_muted).or(muted).or(dark_muted).or(dark)`
with black as the final default (`unwrap_or_else`). -/
def vibrancy_pick (v : Vibrancy) : Rgb :=
  (((((v.primary.or v.light).or v.light_muted).or v.muted).or v.dark_muted).or
    v.dark).getD ⟨0, 0, 0⟩

/-- `main.rs:146`: the picked swatch normalized by 255. -/
def vibrancy_color (v : Vibrancy) : Vec3q :=
  ⟨chan (vibrancy_pick v).r, chan (vibrancy_pick v).g, chan (vibrancy_pick v).b⟩

/-- First non-`None` entry of a candidate list (the claim's priority list). -/
def first_swatch (l : List (Option Rgb)) : Option Rgb := l.findSome? id

/-- C7: the Vibrancy strategy picks the first non-`None` swatch in the
priority order primary, light, light_muted, muted, dark_muted, dark, and
falls back to black `(0,0,0)` when all six categories are `None`; the output
is the picked swatch normalized by 255. -/
theorem vibrancy_pick_priority_order (v : Vibrancy) :
    vibrancy_pick v =
      (first_swatch [v.primary, v.light, v.light_muted, v.muted, v.dark_muted,
        v.dark]).getD ⟨0, 0, 0⟩ ∧
    vibrancy_color v =
      ⟨chan (vibrancy_pick v).r, chan (vibrancy_pick v).g, chan (vibrancy_pick v).b⟩ ∧
    (v.primary = none → v.light = none → v.light_muted = none → v.muted = none →
      v.dark_muted = none → v.dark = none →
      vibrancy_pick v = ⟨0, 0, 0⟩ ∧ vibrancy_color v = ⟨0, 0, 0⟩) := by
  obtain ⟨p, d, l, m, dm, lm⟩ := v
  refine ⟨?_, rfl, ?_⟩
  · cases p <;> cases l <;> cases lm <;> cases m <;> cases dm <;> cases d <;>
      simp [vibrancy_pick, first_swatch, Option.or]
  · intro h1 h2 h3 h4 h5 h6
    simp only at h1 h2 h3 h4 h5 h6
    subst h1
    subst h2
    subst h3
    subst h4
    subst h5
    subst h6
    constructor
    · rfl
    · simp [vibrancy_color, vibrancy_pick, chan]

/-- C7, witness: on the all-`None` vibrancy map the strategy yields black. -/
theorem vibrancy_pick_priority_order_witness :
    vibrancy_pick {} = (first_swatch [none, none, none, none, none, none]).getD ⟨0, 0, 0⟩ ∧
    vibrancy_color {} =
      ⟨chan (vibrancy_pick {}).r, chan (vibrancy_pick {}).g, chan (vibrancy_pick {}).b⟩ ∧
    ((none : Option Rgb) = none → (none : Option Rgb) = none → (none : Option Rgb) = none →
      (none : Option Rgb) = none → (none : Option Rgb) = none → (none : Option Rgb) = none →
      vibrancy_pick {} = ⟨0, 0, 0⟩ ∧ vibrancy_color {} = ⟨0, 0, 0⟩) :=
  vibrancy_pick_priority_order {}
